import Mathlib

/-!
Verification of the incremental batched analysis engine of `scared`
(`src/scared/analysis.py`), as a shallow embedding.

The engine (`BaseAnalysis`) drives batch ingestion, maintains the
accumulation state of a pluggable incremental distinguisher, decides when to
materialize results, and tracks convergence.  The numeric kernels
(distinguisher `update`/`compute`, leakage model, selection function,
discriminant) are external collaborators: they are modelled as pure
functions packaged in an `Ops` record, exactly as the engine uses them.

Machine integers are modelled as `Nat`/`Int` (Python integers are unbounded).
-/

set_option autoImplicit false

namespace Scared

universe u v w

/-- One batch yielded by the trace container.  The engine only observes a
batch through `compute_intermediate_values` (whose result has shape
`(batch size, ...hypothesis dims)`), through the distinguisher fold, and
through the number of traces it contributes.  `size` is the number of traces
in the batch and `hypShape` the trailing (hypothesis) dimensions of the
intermediate-values array computed from its metadata. -/
structure Batch where
  size : Nat
  hypShape : List Nat
deriving DecidableEq

/-- The external collaborators of the engine, as pure functions:
`update` is the distinguisher fold (`DistinguisherMixin.update`), `compute`
the distinguisher reduction (`self.compute()`), `discriminant` the
score-from-results function.  All three live outside `src/scared/analysis.py`
and are opaque to the engine, which only calls them. -/
structure Ops (Acc : Type u) (Result : Type v) (Score : Type w) where
  update : Acc → Batch → Acc
  compute : Acc → Result
  discriminant : Result → Score

/-- The mutable state of a `BaseAnalysis` instance.
`batches_processed` is the Python attribute `_batches_processed` (the
checkpoint marks), `convergence_traces` holds the allocated buffer as
`(trailing shape of one slice, list of score slices stacked on the last
axis)`, or `none` when unallocated (Python `None`).  `results`/`scores`
are `none` until the first `compute_results` (Python `None`). -/
structure AnalysisState (Acc : Type u) (Result : Type v) (Score : Type w) where
  precision : Nat
  processed_traces : Nat
  convergence_step : Option Nat
  batches_processed : List Nat
  convergence_traces : Option (List Nat × List Score)
  results : Option Result
  scores : Option Score
  acc : Acc
deriving DecidableEq

variable {Acc : Type u} {Result : Type v} {Score : Type w}

/-- Python truthiness of `self.convergence_step` (`None` and `0` are falsy;
after `_set_convergence` validation the value is `None` or positive). -/
def truthy : Option Nat → Bool
  | none => false
  | some c => c != 0

/-- The integer value of a set convergence step (only read under `truthy`). -/
def stepVal : Option Nat → Nat
  | none => 0
  | some c => c

/-- `BaseAnalysis._compute_batch_size`.  Python computes
`int(self.convergence_step / (self.convergence_step // base_batch_size))`:
for the (unbounded) integers in scope this equals the floor division
`c / (c / b)`, the semantics §4.3 of the spec prescribes; we use `Nat`
floor division.  (Python raises `ZeroDivisionError` for
`base_batch_size = 0`; every claim assumes a positive batch size.) -/
def compute_batch_size (step : Option Nat) (base_batch_size : Nat) : Nat :=
  if truthy step then
    if base_batch_size ≥ stepVal step then stepVal step
    else stepVal step / (stepVal step / base_batch_size)
  else base_batch_size

/-- `BaseAnalysis.compute_results`: `self.results = self.compute()` then
`self.scores = self.discriminant(self.results)`; both always overwritten. -/
def compute_results (ops : Ops Acc Result Score) (s : AnalysisState Acc Result Score) :
    AnalysisState Acc Result Score :=
  { s with
    results := some (ops.compute s.acc)
    scores := some (ops.discriminant (ops.compute s.acc)) }

/-- `BaseAnalysis._compute_convergence_traces`:
`np.append(self.convergence_traces, self.scores[..., None], axis=-1)`,
i.e. stack the current scores as one more slice on the trailing axis.
The Python call errors when `convergence_traces` is `None`; `run` reaches it
only with an allocated buffer and freshly computed scores, and the theorems
below invoke it only in that situation (the `none` branch keeps `none`). -/
def compute_convergence_traces (s : AnalysisState Acc Result Score) :
    AnalysisState Acc Result Score :=
  { s with
    convergence_traces :=
      match s.convergence_traces, s.scores with
      | some p, some sc => some (p.1, p.2 ++ [sc])
      | ct, _ => ct }

/-- `BaseAnalysis.compute_convergence`.  Under a truthy step it appends
`processed_traces` to `_batches_processed`; then, writing `marks` for the
appended list, if `marks[-1] - marks[0] >= convergence_step` (note
`marks[-1]` is the value just appended, i.e. `processed_traces`) it resets
the marks to `[marks[-1]]`, recomputes results and appends the scores slice.
The subtraction is on Python integers, hence over `Int`. -/
def compute_convergence (ops : Ops Acc Result Score) (s : AnalysisState Acc Result Score) :
    AnalysisState Acc Result Score :=
  if truthy s.convergence_step then
    if (s.processed_traces : Int) -
        ((s.batches_processed ++ [s.processed_traces]).headD 0 : Int) ≥
        (stepVal s.convergence_step : Int) then
      compute_convergence_traces
        (compute_results ops { s with batches_processed := [s.processed_traces] })
    else { s with batches_processed := s.batches_processed ++ [s.processed_traces] }
  else s

/-- `BaseAnalysis.process`: computes intermediate values, lazily allocates
the convergence-traces buffer (`np.empty(intermediate_values.shape[1:] + (0,))`,
i.e. hypothesis dims plus a zero-length trailing axis) when it is `None` and
the step is truthy, then calls the distinguisher `update` with the batch.
Modelled from the spec: the distinguisher fold maintains `processed_traces`
as the running sum of folded batch sizes (§4.1 of the spec; the
`DistinguisherMixin.update` code lives outside `src/scared/analysis.py`). -/
def process (ops : Ops Acc Result Score) (s : AnalysisState Acc Result Score) (b : Batch) :
    AnalysisState Acc Result Score :=
  if s.convergence_traces.isNone && truthy s.convergence_step then
    { s with
      convergence_traces := some (b.hypShape, ([] : List Score))
      acc := ops.update s.acc b
      processed_traces := s.processed_traces + b.size }
  else
    { s with
      acc := ops.update s.acc b
      processed_traces := s.processed_traces + b.size }

/-- `BaseAnalysis._final_compute`: a mandatory `compute_results`, then, if
the step is truthy and `len(self._batches_processed) > 1`, one more
convergence-traces slice.  (`compute_results` leaves the marks untouched, so
testing them before or after it is equivalent.) -/
def final_compute (ops : Ops Acc Result Score) (s : AnalysisState Acc Result Score) :
    AnalysisState Acc Result Score :=
  if truthy s.convergence_step = true ∧ 1 < s.batches_processed.length then
    compute_convergence_traces (compute_results ops s)
  else compute_results ops s

/-- One iteration of the `run` loop body: `self.process(batch)` followed by
`self.compute_convergence()`. -/
def runStep (ops : Ops Acc Result Score) (s : AnalysisState Acc Result Score) (b : Batch) :
    AnalysisState Acc Result Score :=
  compute_convergence ops (process ops s b)

/-- Modelled from the spec: the trace container (`container.batches`,
outside `src/scared/analysis.py`) yields `N` traces as successive batches of
the requested size `z`, the last batch holding the `N % z` remaining traces
when `z` does not divide `N` (§6 Trace Source). -/
def mkBatches (hyp : List Nat) (z N : Nat) : List Batch :=
  List.replicate (N / z) ⟨z, hyp⟩ ++ (if N % z ≠ 0 then [⟨N % z, hyp⟩] else [])

/-- `BaseAnalysis.run`: derives the batch size from the container's default
batch size and the convergence step, processes every batch (`process` then
`compute_convergence`), then performs the final reduction. -/
def run (ops : Ops Acc Result Score) (s : AnalysisState Acc Result Score)
    (hyp : List Nat) (base_batch_size N : Nat) : AnalysisState Acc Result Score :=
  final_compute ops
    (List.foldl (runStep ops)
      s (mkBatches hyp (compute_batch_size s.convergence_step base_batch_size) N))

/-- The state of a freshly constructed engine: `processed_traces = 0`
(from `_initialize_distinguisher`), `_batches_processed = [0]`,
`convergence_traces = None`, `scores = results = None`; `precision` stands
in for the `float32` default dtype. -/
def initState (step : Option Nat) (acc0 : Acc) : AnalysisState Acc Result Score :=
  { precision := 32
    processed_traces := 0
    convergence_step := step
    batches_processed := [0]
    convergence_traces := none
    results := none
    scores := none
    acc := acc0 }

/-- The `convergence_step` argument of the constructor: Python `None`, an
`int` (possibly negative), or a value of any other type. -/
inductive ConvArg where
  | noneArg : ConvArg
  | intArg : Int → ConvArg
  | nonIntArg : ConvArg
deriving DecidableEq

/-- The exceptions the constructors of `analysis.py` can raise. -/
inductive InitError where
  | notImplementedError : InitError
  | typeError : InitError
  | valueError : InitError
  | distinguisherError : InitError
deriving DecidableEq

/-- `BaseAnalysis._set_convergence` validation: a non-`None` argument must
be an `int` (else `TypeError`) and strictly positive (else `ValueError`). -/
def set_convergence_step : ConvArg → Except InitError (Option Nat)
  | ConvArg.noneArg => Except.ok none
  | ConvArg.nonIntArg => Except.error InitError.typeError
  | ConvArg.intArg n =>
      if n ≤ 0 then Except.error InitError.valueError else Except.ok (some n.toNat)

/-- The constructor arguments the validation code inspects, reduced to the
predicates the `isinstance`/`callable` checks test. -/
structure InitArgs where
  hasDistinguisherMixin : Bool
  isSelectionFunction : Bool
  isModel : Bool
  isMonobitModel : Bool
  discriminantCallable : Bool
  convergence_step : ConvArg
deriving DecidableEq

/-- `BaseAnalysis.__init__`: checks the mixin (`NotImplementedError`), the
selection function, the model and the discriminant (`TypeError` each), then
validates the convergence step; on success the state is the fresh
`initState`. -/
def baseInit (a : InitArgs) (acc0 : Acc) :
    Except InitError (AnalysisState Acc Result Score) :=
  if !a.hasDistinguisherMixin then Except.error InitError.notImplementedError
  else if !a.isSelectionFunction then Except.error InitError.typeError
  else if !a.isModel then Except.error InitError.typeError
  else if !a.discriminantCallable then Except.error InitError.typeError
  else
    match set_convergence_step a.convergence_step with
    | Except.error e => Except.error e
    | Except.ok step => Except.ok (initState step acc0)

/-- `DPAAnalysis.__init__`: runs the base constructor, then raises
`DistinguisherError` unless the model is a `Monobit` instance. -/
def dpaInit (a : InitArgs) (acc0 : Acc) :
    Except InitError (AnalysisState Acc Result Score) :=
  match (baseInit a acc0 : Except InitError (AnalysisState Acc Result Score)) with
  | Except.error e => Except.error e
  | Except.ok s =>
      if a.isMonobitModel then Except.ok s
      else Except.error InitError.distinguisherError

/-- Number of slices stacked in the convergence-traces buffer (the length of
its trailing axis); `0` when the buffer is unallocated. -/
def traceCount (s : AnalysisState Acc Result Score) : Nat :=
  match s.convergence_traces with
  | none => 0
  | some p => p.2.length

/-- Full array shape of the convergence-traces buffer (hypothesis dims plus
the trailing stacking axis), `none` when unallocated. -/
def bufferShape : Option (List Nat × List Score) → Option (List Nat)
  | none => none
  | some p => some (p.1 ++ [p.2.length])

/-- A concrete instantiation used for concrete evaluations: the accumulator
counts folded traces, results and scores are plain naturals. -/
def natOps : Ops Nat Nat Nat :=
  { update := fun a b => a + b.size
    compute := fun a => a
    discriminant := fun r => r }

/-- State of the `run` loop of a freshly constructed engine with step `c`
after `j` full batches of size `z` (hypothesis dims `hyp`) have been
processed. -/
def runLoop (ops : Ops Acc Result Score) (acc0 : Acc) (c : Nat) (hyp : List Nat)
    (z j : Nat) : AnalysisState Acc Result Score :=
  List.foldl (runStep ops) (initState (some c) acc0) (List.replicate j ⟨z, hyp⟩)

theorem truthy_some {c : Nat} (hc : 0 < c) : truthy (some c) = true := by
  simp [truthy]
  omega

theorem stepVal_some (c : Nat) : stepVal (some c) = c := rfl

/-- C1: batch-size derivation.  With a set, strictly positive convergence
step `c` and a positive default batch size `b`, the derived batch size is
`c` when `b ≥ c` and the floor division `c / (c / b)` when `b < c`; with no
convergence step it is `b`. -/
theorem batch_size_derivation (b c : Nat) (hb : 0 < b) (hc : 0 < c) :
    (c ≤ b → compute_batch_size (some c) b = c) ∧
    (b < c → compute_batch_size (some c) b = c / (c / b)) ∧
    compute_batch_size none b = b := by
  refine ⟨fun h => ?_, fun h => ?_, rfl⟩
  · simp only [compute_batch_size, truthy_some hc, if_true, stepVal_some]
    rw [if_pos h]
  · simp only [compute_batch_size, truthy_some hc, if_true, stepVal_some]
    rw [if_neg (by omega)]

theorem batch_size_derivation_witness :
    compute_batch_size (some 10) 4 = 10 / (10 / 4) ∧ compute_batch_size none 4 = 4 :=
  ⟨(batch_size_derivation 4 10 (by decide) (by decide)).2.1 (by decide),
   (batch_size_derivation 4 10 (by decide) (by decide)).2.2⟩

/-- C5 counterexample: with default batch size `b = 2` and convergence step
`c = 7` the derived batch size is `2`, and `2` does not divide `7`; so the
derived batch size does not, in general, divide evenly into `c`. -/
theorem batch_size_divisibility_counterexample :
    0 < 2 ∧ 2 < 7 ∧ compute_batch_size (some 7) 2 = 2 ∧ ¬ (2 ∣ 7) := by decide

theorem batch_size_le {b c : Nat} (hc : 0 < c) :
    compute_batch_size (some c) b ≤ c := by
  simp only [compute_batch_size, truthy_some hc, if_true, stepVal_some]
  split
  · exact le_rfl
  · exact Nat.div_le_self c (c / b)

theorem batch_size_ge {b c : Nat} (hb : 0 < b) (hlt : b < c) :
    b ≤ compute_batch_size (some c) b := by
  have hq : 0 < c / b := (Nat.one_le_div_iff hb).mpr (Nat.le_of_lt hlt)
  simp only [compute_batch_size, truthy_some (by omega : 0 < c), if_true, stepVal_some]
  rw [if_neg (by omega)]
  rw [Nat.le_div_iff_mul_le hq]
  calc b * (c / b) = c / b * b := Nat.mul_comm _ _
    _ ≤ c := Nat.div_mul_le_self c b

theorem batch_size_pos {b c : Nat} (hb : 0 < b) (hc : 0 < c) :
    0 < compute_batch_size (some c) b := by
  rcases Nat.lt_or_ge b c with h | h
  · exact Nat.lt_of_lt_of_le hb (batch_size_ge hb h)
  · simp only [compute_batch_size, truthy_some hc, if_true, stepVal_some]
    rw [if_pos h]
    exact hc

/-- C5 amended: for `b ≥ c > 0` the derived batch size is `c`; for
`0 < b < c` the derived batch size `s = c / (c / b)` satisfies `b ≤ s` and
`c / s = c / b` (each convergence step still spans the same whole number of
batches), but it need not divide `c`. -/
theorem batch_size_invariant (b c : Nat) (hb : 0 < b) (hc : 0 < c) :
    (c ≤ b → compute_batch_size (some c) b = c) ∧
    (b < c →
      b ≤ compute_batch_size (some c) b ∧
      c / compute_batch_size (some c) b = c / b) := by
  refine ⟨fun h => ?_, fun h => ⟨batch_size_ge hb h, ?_⟩⟩
  · simp only [compute_batch_size, truthy_some hc, if_true, stepVal_some]
    rw [if_pos h]
  · have hq : 0 < c / b := (Nat.one_le_div_iff hb).mpr (Nat.le_of_lt h)
    have hbs : b ≤ compute_batch_size (some c) b := batch_size_ge hb h
    have hs : 0 < compute_batch_size (some c) b := Nat.lt_of_lt_of_le hb hbs
    have heq : compute_batch_size (some c) b = c / (c / b) := by
      simp only [compute_batch_size, truthy_some hc, if_true, stepVal_some]
      rw [if_neg (by omega)]
    rw [heq] at hbs hs ⊢
    refine Nat.le_antisymm (Nat.div_le_div_left hbs hb) ?_
    rw [Nat.le_div_iff_mul_le hs]
    calc c / b * (c / (c / b)) = c / (c / b) * (c / b) := Nat.mul_comm _ _
      _ ≤ c := Nat.div_mul_le_self c (c / b)

theorem batch_size_invariant_witness :
    compute_batch_size (some 7) 2 = 2 ∧ 2 ≤ compute_batch_size (some 7) 2 ∧
      7 / compute_batch_size (some 7) 2 = 7 / 2 :=
  ⟨by decide, (batch_size_invariant 2 7 (by decide) (by decide)).2 (by decide)⟩

/-- C6: idempotent reduction.  `compute_results` only overwrites `results`
and `scores` with pure functions of the (unchanged) accumulator, so calling
it twice with no intervening fold is the same as calling it once: both calls
leave identical Results and identical Scores. -/
theorem compute_results_idempotent (ops : Ops Acc Result Score)
    (s : AnalysisState Acc Result Score) :
    compute_results ops (compute_results ops s) = compute_results ops s := rfl

theorem process_convergence_step (ops : Ops Acc Result Score)
    (s : AnalysisState Acc Result Score) (b : Batch) :
    (process ops s b).convergence_step = s.convergence_step := by
  simp only [process]
  split <;> rfl

theorem process_processed_traces (ops : Ops Acc Result Score)
    (s : AnalysisState Acc Result Score) (b : Batch) :
    (process ops s b).processed_traces = s.processed_traces + b.size := by
  simp only [process]
  split <;> rfl

theorem process_batches_processed (ops : Ops Acc Result Score)
    (s : AnalysisState Acc Result Score) (b : Batch) :
    (process ops s b).batches_processed = s.batches_processed := by
  simp only [process]
  split <;> rfl

theorem process_convergence_traces (ops : Ops Acc Result Score)
    (s : AnalysisState Acc Result Score) (b : Batch) :
    (process ops s b).convergence_traces =
      if s.convergence_traces.isNone && truthy s.convergence_step then
        some (b.hypShape, ([] : List Score))
      else s.convergence_traces := by
  simp only [process]
  split <;> simp_all

theorem compute_convergence_not_tracking (ops : Ops Acc Result Score)
    (s : AnalysisState Acc Result Score) (h : truthy s.convergence_step = false) :
    compute_convergence ops s = s := by
  simp [compute_convergence, h]

theorem final_compute_of_neg (ops : Ops Acc Result Score)
    (s : AnalysisState Acc Result Score)
    (h : ¬ (truthy s.convergence_step = true ∧ 1 < s.batches_processed.length)) :
    final_compute ops s = compute_results ops s := by
  simp only [final_compute]
  rw [if_neg h]

theorem foldl_runStep_no_step (ops : Ops Acc Result Score) (l : List Batch)
    (s : AnalysisState Acc Result Score) (h : s.convergence_step = none) :
    (List.foldl (runStep ops) s l).convergence_step = none ∧
    (List.foldl (runStep ops) s l).convergence_traces = s.convergence_traces := by
  induction l generalizing s with
  | nil => exact ⟨h, rfl⟩
  | cons bb t ih =>
    have htr : truthy s.convergence_step = false := by rw [h]; rfl
    have hstepP : (process ops s bb).convergence_step = none :=
      (process_convergence_step ops s bb).trans h
    have hctP : (process ops s bb).convergence_traces = s.convergence_traces := by
      rw [process_convergence_traces, htr]
      simp
    have hcc : runStep ops s bb = process ops s bb :=
      compute_convergence_not_tracking ops _ (by rw [hstepP]; rfl)
    rw [List.foldl_cons]
    rcases ih (runStep ops s bb) (by rw [hcc, hstepP]) with ⟨ih1, ih2⟩
    exact ⟨ih1, by rw [ih2, hcc, hctP]⟩

/-- C10: sub-threshold checkpoint frame.  With tracking enabled and the
span (newest mark, i.e. the just-appended `processed_traces`, minus the
retained span-start mark) strictly below the convergence step,
`compute_convergence` only appends `processed_traces` to the marks:
results, scores, convergence traces, the trace count and the accumulator
are untouched. -/
theorem compute_convergence_subthreshold_frame (ops : Ops Acc Result Score)
    (s : AnalysisState Acc Result Score)
    (h : truthy s.convergence_step = true)
    (hspan : (s.processed_traces : Int) -
      ((s.batches_processed ++ [s.processed_traces]).headD 0 : Int) <
      (stepVal s.convergence_step : Int)) :
    compute_convergence ops s =
      { s with batches_processed := s.batches_processed ++ [s.processed_traces] } ∧
    (compute_convergence ops s).results = s.results ∧
    (compute_convergence ops s).scores = s.scores ∧
    (compute_convergence ops s).convergence_traces = s.convergence_traces ∧
    (compute_convergence ops s).processed_traces = s.processed_traces ∧
    (compute_convergence ops s).acc = s.acc := by
  have heq : compute_convergence ops s =
      { s with batches_processed := s.batches_processed ++ [s.processed_traces] } := by
    simp only [compute_convergence, h, if_true]
    rw [if_neg (not_le.mpr hspan)]
  exact ⟨heq, by rw [heq], by rw [heq], by rw [heq], by rw [heq], by rw [heq]⟩

theorem compute_convergence_subthreshold_frame_witness :
    compute_convergence natOps (initState (some 5) (0 : Nat)) =
      { initState (some 5) (0 : Nat) with batches_processed := [0] ++ [0] } :=
  (compute_convergence_subthreshold_frame natOps (initState (some 5) (0 : Nat))
    (by decide) (by decide)).1

/-- C3: checkpoint trigger and reset.  With tracking enabled (step `c > 0`)
and the buffer allocated, `compute_convergence` appends `processed_traces`
to the marks; exactly when the span from the retained span-start mark to
the newest mark reaches `c`, it resets the marks to the single latest mark,
recomputes Results and Scores via the reduction and discriminant, and
appends the new Scores slice to the convergence traces; below the
threshold the appended mark is the only change. -/
theorem compute_convergence_trigger_spec (ops : Ops Acc Result Score)
    (s : AnalysisState Acc Result Score) (c : Nat) (sh : List Nat) (sl : List Score)
    (hstep : s.convergence_step = some c) (hc : 0 < c)
    (hbuf : s.convergence_traces = some (sh, sl)) :
    ((s.processed_traces : Int) -
        ((s.batches_processed ++ [s.processed_traces]).headD 0 : Int) ≥
        (stepVal s.convergence_step : Int) →
      (compute_convergence ops s).batches_processed = [s.processed_traces] ∧
      (compute_convergence ops s).results = some (ops.compute s.acc) ∧
      (compute_convergence ops s).scores =
        some (ops.discriminant (ops.compute s.acc)) ∧
      (compute_convergence ops s).convergence_traces =
        some (sh, sl ++ [ops.discriminant (ops.compute s.acc)])) ∧
    ((s.processed_traces : Int) -
        ((s.batches_processed ++ [s.processed_traces]).headD 0 : Int) <
        (stepVal s.convergence_step : Int) →
      compute_convergence ops s =
        { s with batches_processed := s.batches_processed ++ [s.processed_traces] }) := by
  have ht : truthy s.convergence_step = true := by rw [hstep]; exact truthy_some hc
  constructor
  · intro hge
    simp only [compute_convergence, ht, if_true]
    rw [if_pos hge]
    simp only [compute_results, compute_convergence_traces, hbuf]
    exact ⟨trivial, trivial, trivial, trivial⟩
  · intro hlt
    simp only [compute_convergence, ht, if_true]
    rw [if_neg (not_le.mpr hlt)]

theorem compute_convergence_trigger_spec_witness :
    (compute_convergence natOps
      { initState (some 2) (0 : Nat) with
        processed_traces := 5
        convergence_traces := some ([3], ([] : List Nat)) }).batches_processed = [5] ∧
    (compute_convergence natOps
      { initState (some 2) (0 : Nat) with
        processed_traces := 5
        convergence_traces := some ([3], ([] : List Nat)) }).convergence_traces =
      some ([3], [0]) := by
  have h := (compute_convergence_trigger_spec natOps
    { initState (some 2) (0 : Nat) with
      processed_traces := 5
      convergence_traces := some ([3], ([] : List Nat)) }
    2 [3] [] rfl (by decide) rfl).1 (by decide)
  exact ⟨h.1, h.2.2.2⟩

/-- C4: final reduction.  `_final_compute` (run unconditionally after the
source is exhausted) always overwrites Results and Scores from the current
accumulator, and appends one more convergence-traces slice exactly when
tracking is enabled and the marks hold more than the single
initial/reset mark; `run` is the batch loop followed by this final
reduction. -/
theorem final_reduction_spec (ops : Ops Acc Result Score)
    (s : AnalysisState Acc Result Score) :
    (final_compute ops s).results = some (ops.compute s.acc) ∧
    (final_compute ops s).scores = some (ops.discriminant (ops.compute s.acc)) ∧
    (∀ (sh : List Nat) (sl : List Score), s.convergence_traces = some (sh, sl) →
      truthy s.convergence_step = true → 1 < s.batches_processed.length →
      (final_compute ops s).convergence_traces =
        some (sh, sl ++ [ops.discriminant (ops.compute s.acc)])) ∧
    (¬ (truthy s.convergence_step = true ∧ 1 < s.batches_processed.length) →
      (final_compute ops s).convergence_traces = s.convergence_traces) ∧
    (∀ (st : AnalysisState Acc Result Score) (hyp : List Nat) (bb N : Nat),
      run ops st hyp bb N =
        final_compute ops (List.foldl (runStep ops) st
          (mkBatches hyp (compute_batch_size st.convergence_step bb) N))) := by
  by_cases hcond : truthy s.convergence_step = true ∧ 1 < s.batches_processed.length
  · have heq : final_compute ops s = compute_convergence_traces (compute_results ops s) := by
      simp only [final_compute]
      rw [if_pos hcond]
    refine ⟨?_, ?_, ?_, fun hn => absurd hcond hn, fun st hyp bb N => rfl⟩
    · rw [heq]; rfl
    · rw [heq]; rfl
    · intro sh sl hbuf _ _
      rw [heq]
      simp only [compute_results, compute_convergence_traces, hbuf]
  · have heq : final_compute ops s = compute_results ops s := final_compute_of_neg ops s hcond
    refine ⟨?_, ?_, ?_, fun _ => ?_, fun st hyp bb N => rfl⟩
    · rw [heq]; rfl
    · rw [heq]; rfl
    · intro sh sl hbuf htr hlen
      exact absurd ⟨htr, hlen⟩ hcond
    · rw [heq]; rfl

theorem final_reduction_spec_witness :
    (final_compute natOps
      { initState (some 1) (0 : Nat) with
        processed_traces := 1
        batches_processed := [0, 1]
        convergence_traces := some ([2], ([] : List Nat)) }).results = some 0 ∧
    (final_compute natOps
      { initState (some 1) (0 : Nat) with
        processed_traces := 1
        batches_processed := [0, 1]
        convergence_traces := some ([2], ([] : List Nat)) }).convergence_traces =
      some ([2], [0]) := by
  have h := final_reduction_spec natOps
    { initState (some 1) (0 : Nat) with
      processed_traces := 1
      batches_processed := [0, 1]
      convergence_traces := some ([2], ([] : List Nat)) }
  exact ⟨h.1, h.2.2.1 [2] [] rfl (by decide) (by decide)⟩

/-- C7: convergence-step validation.  With the other constructor checks
passing, a non-integer `convergence_step` raises `TypeError`, an integer
`≤ 0` raises `ValueError`, and `None` constructs successfully with
tracking disabled (the step is falsy) and the checkpoint marks initialized
to `[0]`. -/
theorem convergence_step_validation (a : InitArgs) (acc0 : Acc)
    (h1 : a.hasDistinguisherMixin = true) (h2 : a.isSelectionFunction = true)
    (h3 : a.isModel = true) (h4 : a.discriminantCallable = true) :
    (a.convergence_step = ConvArg.nonIntArg →
      (baseInit a acc0 : Except InitError (AnalysisState Acc Result Score)) =
        Except.error InitError.typeError) ∧
    (∀ n : Int, a.convergence_step = ConvArg.intArg n → n ≤ 0 →
      (baseInit a acc0 : Except InitError (AnalysisState Acc Result Score)) =
        Except.error InitError.valueError) ∧
    (a.convergence_step = ConvArg.noneArg →
      (baseInit a acc0 : Except InitError (AnalysisState Acc Result Score)) =
        Except.ok (initState none acc0) ∧
      truthy (initState none acc0 : AnalysisState Acc Result Score).convergence_step
        = false ∧
      (initState none acc0 : AnalysisState Acc Result Score).batches_processed
        = [0]) := by
  refine ⟨fun h => ?_, fun n h hn => ?_, fun h => ⟨?_, rfl, rfl⟩⟩
  · simp [baseInit, h1, h2, h3, h4, h, set_convergence_step]
  · simp [baseInit, h1, h2, h3, h4, h, set_convergence_step, hn]
  · simp [baseInit, h1, h2, h3, h4, h, set_convergence_step]

theorem convergence_step_validation_witness :
    (baseInit ⟨true, true, true, true, true, ConvArg.intArg (-3)⟩ (0 : Nat) :
      Except InitError (AnalysisState Nat Nat Nat)) =
      Except.error InitError.valueError :=
  (convergence_step_validation ⟨true, true, true, true, true, ConvArg.intArg (-3)⟩
    (0 : Nat) rfl rfl rfl rfl).2.1 (-3) rfl (by decide)

/-- C8: the difference-based (DPA) analysis rejects any model that is not a
Monobit model: its construction never succeeds, and when the base
validation passes it fails with the distinguisher configuration error —
in either case before any trace is processed. -/
theorem dpa_requires_monobit (a : InitArgs) (acc0 : Acc)
    (h : a.isMonobitModel = false) :
    (∀ s : AnalysisState Acc Result Score, dpaInit a acc0 ≠ Except.ok s) ∧
    (∀ st : AnalysisState Acc Result Score, baseInit a acc0 = Except.ok st →
      (dpaInit a acc0 : Except InitError (AnalysisState Acc Result Score)) =
        Except.error InitError.distinguisherError) := by
  constructor
  · intro s
    simp only [dpaInit]
    cases hb : (baseInit a acc0 : Except InitError (AnalysisState Acc Result Score)) with
    | error e => simp
    | ok st => simp [h]
  · intro st hst
    simp only [dpaInit, hst, h]
    rfl

theorem dpa_requires_monobit_witness :
    (dpaInit ⟨true, true, true, false, true, ConvArg.noneArg⟩ (0 : Nat) :
      Except InitError (AnalysisState Nat Nat Nat)) =
      Except.error InitError.distinguisherError :=
  (dpa_requires_monobit ⟨true, true, true, false, true, ConvArg.noneArg⟩
    (0 : Nat) rfl).2 (initState none 0) (by rfl)

/-- C9 counterexample: with tracking enabled (step 3), the very first
`process` call — before any checkpoint, and before `compute_convergence`
has ever run (the slice count is still 0) — already allocates the
convergence-traces buffer; so the buffer is not `None` until the first
checkpoint, only until the first `process`. -/
theorem lazy_allocation_counterexample :
    traceCount (process natOps (initState (some 3) (0 : Nat)) ⟨2, [4]⟩) = 0 ∧
    (process natOps (initState (some 3) (0 : Nat)) ⟨2, [4]⟩).convergence_traces =
      some ([4], []) ∧
    (process natOps (initState (some 3) (0 : Nat)) ⟨2, [4]⟩).convergence_traces ≠
      none := by decide

/-- C9 amended: with tracking enabled, the first `process` call (not the
first checkpoint) allocates the buffer, shaped as the hypothesis dimensions
of the intermediate values plus a zero-length trailing axis; with
`convergence_step = None` and an unallocated buffer, every operation leaves
the buffer `None`. -/
theorem lazy_allocation (ops : Ops Acc Result Score)
    (s : AnalysisState Acc Result Score) (b : Batch) :
    (s.convergence_traces = none → truthy s.convergence_step = true →
      (process ops s b).convergence_traces = some (b.hypShape, ([] : List Score)) ∧
      bufferShape (process ops s b).convergence_traces = some (b.hypShape ++ [0])) ∧
    (s.convergence_step = none → s.convergence_traces = none →
      (process ops s b).convergence_traces = none ∧
      (compute_convergence ops s).convergence_traces = none ∧
      (compute_results ops s).convergence_traces = none ∧
      (final_compute ops s).convergence_traces = none ∧
      ∀ (hyp : List Nat) (bb N : Nat),
        (run ops s hyp bb N).convergence_traces = none) := by
  constructor
  · intro hct htr
    have halloc : (process ops s b).convergence_traces =
        some (b.hypShape, ([] : List Score)) := by
      rw [process_convergence_traces, hct, htr]
      simp
    exact ⟨halloc, by rw [halloc]; rfl⟩
  · intro hstep hct
    have htr : truthy s.convergence_step = false := by rw [hstep]; rfl
    have hp : (process ops s b).convergence_traces = none := by
      rw [process_convergence_traces, htr]
      simpa using hct
    have hcc : (compute_convergence ops s).convergence_traces = none := by
      rw [compute_convergence_not_tracking ops s htr]
      exact hct
    have hcr : (compute_results ops s).convergence_traces = none := hct
    have hfc : (final_compute ops s).convergence_traces = none := by
      rw [final_compute_of_neg ops s (by simp [htr])]
      exact hct
    refine ⟨hp, hcc, hcr, hfc, fun hyp bb N => ?_⟩
    have hfold := foldl_runStep_no_step ops
      (mkBatches hyp (compute_batch_size s.convergence_step bb) N) s hstep
    have : run ops s hyp bb N =
        final_compute ops (List.foldl (runStep ops) s
          (mkBatches hyp (compute_batch_size s.convergence_step bb) N)) := rfl
    rw [this, final_compute_of_neg ops _ (by simp [truthy, hfold.1])]
    exact hfold.2.trans hct

theorem lazy_allocation_witness :
    (process natOps (initState (some 3) (0 : Nat)) ⟨2, [4]⟩).convergence_traces =
      some ([4], ([] : List Nat)) ∧
    (run natOps (initState none (0 : Nat)) [4] 2 20).convergence_traces = none :=
  ⟨((lazy_allocation natOps (initState (some 3) (0 : Nat)) ⟨2, [4]⟩).1
      rfl (by decide)).1,
   ((lazy_allocation natOps (initState none (0 : Nat)) ⟨2, [4]⟩).2
      rfl rfl).2.2.2.2 [4] 2 20⟩

theorem cc_checkpoint (ops : Ops Acc Result Score) (s : AnalysisState Acc Result Score)
    {c m0 : Nat} {t : List Nat} {sh : List Nat} {sl : List Score}
    (hstep : s.convergence_step = some c) (hc : 0 < c)
    (hmarks : s.batches_processed = m0 :: t)
    (hbuf : s.convergence_traces = some (sh, sl))
    (hge : m0 + c ≤ s.processed_traces) :
    compute_convergence ops s =
      { s with
        batches_processed := [s.processed_traces]
        results := some (ops.compute s.acc)
        scores := some (ops.discriminant (ops.compute s.acc))
        convergence_traces :=
          some (sh, sl ++ [ops.discriminant (ops.compute s.acc)]) } := by
  have ht : truthy s.convergence_step = true := by rw [hstep]; exact truthy_some hc
  have hcond : (s.processed_traces : Int) -
      ((s.batches_processed ++ [s.processed_traces]).headD 0 : Int) ≥
      (stepVal s.convergence_step : Int) := by
    rw [hmarks, hstep]
    simp only [List.cons_append, List.headD_cons, stepVal]
    omega
  simp only [compute_convergence, ht, if_true]
  rw [if_pos hcond]
  simp only [compute_results, compute_convergence_traces, hbuf]

theorem cc_no_checkpoint (ops : Ops Acc Result Score)
    (s : AnalysisState Acc Result Score) {c m0 : Nat} {t : List Nat}
    (hstep : s.convergence_step = some c) (hc : 0 < c)
    (hmarks : s.batches_processed = m0 :: t)
    (hlt : s.processed_traces < m0 + c) :
    compute_convergence ops s =
      { s with batches_processed :=
          s.batches_processed ++ [s.processed_traces] } := by
  have ht : truthy s.convergence_step = true := by rw [hstep]; exact truthy_some hc
  have hcond : ¬ ((s.processed_traces : Int) -
      ((s.batches_processed ++ [s.processed_traces]).headD 0 : Int) ≥
      (stepVal s.convergence_step : Int)) := by
    rw [hmarks, hstep]
    simp only [List.cons_append, List.headD_cons, stepVal]
    omega
  simp only [compute_convergence, ht, if_true]
  rw [if_neg hcond]

theorem runLoop_invariant (ops : Ops Acc Result Score) (acc0 : Acc) (hyp : List Nat)
    (z c d : Nat) (hz : 0 < z) (hd : 0 < d) (hcd : c = d * z) (j : Nat) :
    (runLoop ops acc0 c hyp z j).convergence_step = some c ∧
    (runLoop ops acc0 c hyp z j).processed_traces = j * z ∧
    (runLoop ops acc0 c hyp z j).batches_processed.head? =
      some (d * (j / d) * z) ∧
    (runLoop ops acc0 c hyp z j).batches_processed.length = j % d + 1 ∧
    (j = 0 → (runLoop ops acc0 c hyp z j).convergence_traces = none) ∧
    (0 < j → ∃ sl : List Score,
      (runLoop ops acc0 c hyp z j).convergence_traces = some (hyp, sl) ∧
      sl.length = j / d) := by
  have hc : 0 < c := by rw [hcd]; exact Nat.mul_pos hd hz
  induction j with
  | zero =>
    refine ⟨rfl, ?_, ?_, ?_, fun _ => rfl, fun h => absurd h (by omega)⟩
    · simp [runLoop, initState]
    · simp [runLoop, initState]
    · simp [runLoop, initState]
  | succ j ih =>
    obtain ⟨h1, h2, h3, h4, h5, h6⟩ := ih
    have hunfold : runLoop ops acc0 c hyp z (j + 1) =
        runStep ops (runLoop ops acc0 c hyp z j) ⟨z, hyp⟩ := by
      simp [runLoop, List.replicate_succ', List.foldl_append]
    set S := runLoop ops acc0 c hyp z j with hS
    set P := process ops S ⟨z, hyp⟩ with hP
    have hPstep : P.convergence_step = some c :=
      (process_convergence_step ops S _).trans h1
    have hPproc : P.processed_traces = j * z + z := by
      rw [hP, process_processed_traces, h2]
    have hPmarks : P.batches_processed = S.batches_processed :=
      process_batches_processed ops S _
    obtain ⟨t, ht⟩ : ∃ t, S.batches_processed = (d * (j / d) * z) :: t := by
      cases hm : S.batches_processed with
      | nil => rw [hm] at h3; exact absurd h3 (by simp)
      | cons a u =>
        rw [hm] at h3
        simp only [List.head?_cons, Option.some.injEq] at h3
        exact ⟨u, by rw [h3]⟩
    obtain ⟨sl', hsl', hlen'⟩ : ∃ sl' : List Score,
        P.convergence_traces = some (hyp, sl') ∧ sl'.length = j / d := by
      rcases Nat.eq_zero_or_pos j with hj0 | hjpos
      · have hnone := h5 hj0
        refine ⟨[], ?_, by simp [hj0]⟩
        rw [hP, process_convergence_traces, hnone, h1]
        simp [truthy_some hc]
      · obtain ⟨sl, hsl, hlen⟩ := h6 hjpos
        refine ⟨sl, ?_, hlen⟩
        rw [hP, process_convergence_traces, hsl]
        simp
    have hqr := Nat.div_add_mod j d
    have hr : j % d < d := Nat.mod_lt j hd
    rw [hunfold]
    simp only [runStep]
    rw [← hP]
    rcases Nat.lt_or_ge (j % d + 1) d with hcase | hcase
    · -- span still below the step: the mark is appended, nothing else happens
      have hra : j + 1 = d * (j / d) + (j % d + 1) := by omega
      have hdiv : (j + 1) / d = j / d := by
        rw [hra, Nat.mul_add_div hd, Nat.div_eq_of_lt hcase, Nat.add_zero]
      have hmod : (j + 1) % d = j % d + 1 := by
        rw [hra, Nat.mul_add_mod, Nat.mod_eq_of_lt hcase]
      have hnt : P.processed_traces < d * (j / d) * z + c := by
        rw [hPproc, hcd]
        have e1 : j * z + z = (j + 1) * z := (Nat.succ_mul j z).symm
        have e2 : d * (j / d) * z + d * z = (d * (j / d) + d) * z :=
          (Nat.add_mul _ _ _).symm
        rw [e1, e2]
        exact (Nat.mul_lt_mul_right hz).mpr (by omega)
      rw [cc_no_checkpoint ops P hPstep hc (hPmarks.trans ht) hnt]
      refine ⟨hPstep, ?_, ?_, ?_, fun h => absurd h (by omega),
        fun _ => ⟨sl', hsl', ?_⟩⟩
      · show P.processed_traces = (j + 1) * z
        rw [hPproc, Nat.succ_mul]
      · show (P.batches_processed ++ [P.processed_traces]).head? =
          some (d * ((j + 1) / d) * z)
        rw [hPmarks, ht, hdiv]
        rfl
      · show (P.batches_processed ++ [P.processed_traces]).length =
          (j + 1) % d + 1
        rw [List.length_append, hPmarks, h4, hmod]
        rfl
      · rw [hlen', hdiv]
    · -- span reaches the step: checkpoint fires
      have heq : j % d + 1 = d := by omega
      have hra : j + 1 = d * (j / d + 1) := by
        rw [Nat.mul_add, Nat.mul_one]
        omega
      have hdiv : (j + 1) / d = j / d + 1 := by
        rw [hra, Nat.mul_div_cancel_left _ hd]
      have hmod : (j + 1) % d = 0 := by
        rw [hra, Nat.mul_mod_right]
      have htrig : d * (j / d) * z + c ≤ P.processed_traces := by
        rw [hPproc, hcd]
        have e1 : j * z + z = (j + 1) * z := (Nat.succ_mul j z).symm
        have e2 : d * (j / d) * z + d * z = (d * (j / d) + d) * z :=
          (Nat.add_mul _ _ _).symm
        rw [e1, e2]
        exact Nat.mul_le_mul_right z (by omega)
      rw [cc_checkpoint ops P hPstep hc (hPmarks.trans ht) hsl' htrig]
      refine ⟨hPstep, ?_, ?_, ?_, fun h => absurd h (by omega),
        fun _ => ⟨sl' ++ [ops.discriminant (ops.compute P.acc)], rfl, ?_⟩⟩
      · show P.processed_traces = (j + 1) * z
        rw [hPproc, Nat.succ_mul]
      · show ([P.processed_traces] : List Nat).head? = some (d * ((j + 1) / d) * z)
        rw [hdiv, hPproc]
        have hme : d * (j / d + 1) * z = j * z + z := by
          rw [← hra, Nat.succ_mul]
        rw [hme]
        rfl
      · show (1 : Nat) = (j + 1) % d + 1
        rw [hmod]
      · rw [List.length_append, hlen', hdiv]
        rfl

theorem count_arith (z d f p N c : Nat) (hz : 0 < z) (hd : 0 < d)
    (hcd : c = d * z) (hN : N = z * f + p) (hp : p < z) :
    N / c = f / d ∧ N % c = z * (f % d) + p := by
  have hc : 0 < c := by rw [hcd]; exact Nat.mul_pos hd hz
  have hfd : f = d * (f / d) + f % d := (Nat.div_add_mod f d).symm
  have hNc : N = c * (f / d) + (z * (f % d) + p) := by
    calc N = z * f + p := hN
      _ = z * (d * (f / d) + f % d) + p := by rw [← hfd]
      _ = c * (f / d) + (z * (f % d) + p) := by rw [hcd]; ring
  have h1 : f % d + 1 ≤ d := by have := Nat.mod_lt f hd; omega
  have hrem : z * (f % d) + p < c := by
    calc z * (f % d) + p < z * (f % d) + z := by omega
      _ = z * (f % d + 1) := by ring
      _ ≤ z * d := Nat.mul_le_mul_left z h1
      _ = c := by rw [hcd]; ring
  constructor
  · rw [hNc, Nat.mul_add_div hc, Nat.div_eq_of_lt hrem, Nat.add_zero]
  · rw [hNc, Nat.mul_add_mod, Nat.mod_eq_of_lt hrem]

/-- C2 counterexample: with default batch size 2, convergence step 7 and 8
traces (`8 = 1 * 7 + 1`, so `k = 1` and `r = 1 > 0`), the derived batch
size is 2 (which does not divide 7) and the run produces a single
convergence-traces slice, not the `k + 1 = 2` slices the claim predicts:
the four 2-trace batches first cross the threshold at 8 processed traces,
the marks are reset there, and the final reduction then finds only the one
reset mark and appends nothing. -/
theorem run_checkpoint_count_counterexample :
    compute_batch_size (some 7) 2 = 2 ∧
    8 / 7 = 1 ∧ 8 % 7 = 1 ∧
    traceCount (run natOps (initState (some 7) (0 : Nat)) [1] 2 8) = 1 ∧
    (1 : Nat) ≠ 1 + 1 := by decide

/-- C2 amended: when the derived batch size divides the convergence step
`c` (as it always does for `b ≥ c`, and in particular in the spec scenario
`b = 100`, `c = 300`), a run over `N` traces ends with exactly
`N / c` checkpoint slices plus one extra trailing slice iff `N % c > 0`.
Without that divisibility the count can be lower, because checkpoints then
fire late (only once the span overshoots `c`). -/
theorem run_checkpoint_count (ops : Ops Acc Result Score) (acc0 : Acc)
    (hyp : List Nat) (b c N : Nat) (hb : 0 < b) (hc : 0 < c)
    (hdvd : compute_batch_size (some c) b ∣ c) :
    traceCount (run ops (initState (some c) acc0) hyp b N) =
      N / c + (if N % c ≠ 0 then 1 else 0) := by
  have hz : 0 < compute_batch_size (some c) b := batch_size_pos hb hc
  set z := compute_batch_size (some c) b with hzdef
  have hzc : z ≤ c := Nat.le_of_dvd hc hdvd
  set d := c / z with hddef
  have hd : 0 < d := Nat.div_pos hzc hz
  have hcd : c = d * z := by rw [hddef]; exact (Nat.div_mul_cancel hdvd).symm
  have hrun : run ops (initState (some c) acc0) hyp b N =
      final_compute ops (List.foldl (runStep ops) (initState (some c) acc0)
        (mkBatches hyp z N)) := rfl
  set f := N / z with hfdef
  set p := N % z with hpdef
  have hNzf : N = z * f + p := by
    rw [hfdef, hpdef]
    exact (Nat.div_add_mod N z).symm
  have hplt : p < z := by rw [hpdef]; exact Nat.mod_lt N hz
  obtain ⟨hNdiv, hNmod⟩ := count_arith z d f p N c hz hd hcd hNzf hplt
  obtain ⟨h1, h2, h3, h4, h5, h6⟩ := runLoop_invariant ops acc0 hyp z c d hz hd hcd f
  by_cases hp0 : p = 0
  · -- no trailing partial batch
    have hbatches : mkBatches hyp z N = List.replicate f ⟨z, hyp⟩ := by
      simp only [mkBatches, ← hfdef, ← hpdef, hp0]
      simp
    have hL : List.foldl (runStep ops) (initState (some c) acc0)
        (mkBatches hyp z N) = runLoop ops acc0 c hyp z f := by
      rw [hbatches]; rfl
    rw [hrun, hL]
    set L := runLoop ops acc0 c hyp z f
    by_cases hfd : f % d = 0
    · -- the end of the run coincides with the last checkpoint: no extra slice
      have hnoapp : final_compute ops L = compute_results ops L := by
        refine final_compute_of_neg ops L ?_
        rintro ⟨-, hlen⟩
        rw [h4, hfd] at hlen
        omega
      have hmod0 : N % c = 0 := by rw [hNmod, hfd, hp0]; ring
      rw [hnoapp, hNdiv, hmod0]
      simp only [ne_eq, not_true_eq_false, if_neg, Nat.add_zero]
      rcases Nat.eq_zero_or_pos f with hf0 | hfpos
      · have hnone := h5 hf0
        show traceCount L = f / d
        rw [traceCount, hnone, hf0]
        simp
      · obtain ⟨sl, hsl, hlen⟩ := h6 hfpos
        show traceCount L = f / d
        rw [traceCount, hsl]
        exact hlen
    · -- the run ends strictly between checkpoints: one extra trailing slice
      have hfpos : 0 < f := by
        rcases Nat.eq_zero_or_pos f with h0 | h
        · rw [h0] at hfd; simp at hfd
        · exact h
      obtain ⟨sl, hsl, hlen⟩ := h6 hfpos
      have happ : final_compute ops L =
          compute_convergence_traces (compute_results ops L) := by
        simp only [final_compute]
        rw [if_pos ⟨by rw [h1]; exact truthy_some hc, by rw [h4]; omega⟩]
      have hmodpos : N % c ≠ 0 := by
        rw [hNmod, hp0, Nat.add_zero]
        exact Nat.mul_ne_zero (by omega) hfd
      rw [happ, hNdiv, if_pos hmodpos]
      have hctfinal : (compute_convergence_traces
          (compute_results ops L)).convergence_traces =
          some (hyp, sl ++ [ops.discriminant (ops.compute L.acc)]) := by
        simp only [compute_results, compute_convergence_traces, hsl]
      rw [traceCount, hctfinal]
      simp only [List.length_append, hlen, List.length_cons, List.length_nil]
  · -- trailing partial batch of p traces
    have hbatches : mkBatches hyp z N =
        List.replicate f ⟨z, hyp⟩ ++ [⟨p, hyp⟩] := by
      simp only [mkBatches, ← hfdef, ← hpdef]
      simp [hp0]
    have hL : List.foldl (runStep ops) (initState (some c) acc0)
        (mkBatches hyp z N) =
        runStep ops (runLoop ops acc0 c hyp z f) ⟨p, hyp⟩ := by
      rw [hbatches, List.foldl_append]
      rfl
    set L := runLoop ops acc0 c hyp z f with hLdef
    set P := process ops L ⟨p, hyp⟩ with hPdef
    have hPstep : P.convergence_step = some c :=
      (process_convergence_step ops L _).trans h1
    have hPproc : P.processed_traces = f * z + p := by
      rw [hPdef, process_processed_traces, h2]
    have hPmarks : P.batches_processed = L.batches_processed :=
      process_batches_processed ops L _
    obtain ⟨t, ht⟩ : ∃ t, L.batches_processed = (d * (f / d) * z) :: t := by
      cases hm : L.batches_processed with
      | nil => rw [hm] at h3; exact absurd h3 (by simp)
      | cons a u =>
        rw [hm] at h3
        simp only [List.head?_cons, Option.some.injEq] at h3
        exact ⟨u, by rw [h3]⟩
    obtain ⟨sl', hsl', hlen'⟩ : ∃ sl' : List Score,
        P.convergence_traces = some (hyp, sl') ∧ sl'.length = f / d := by
      rcases Nat.eq_zero_or_pos f with hf0 | hfpos
      · have hnone := h5 hf0
        refine ⟨[], ?_, by simp [hf0]⟩
        rw [hPdef, process_convergence_traces, hnone, h1]
        simp [truthy_some hc]
      · obtain ⟨sl, hsl, hlen⟩ := h6 hfpos
        refine ⟨sl, ?_, hlen⟩
        rw [hPdef, process_convergence_traces, hsl]
        simp
    have hmd : f % d + 1 ≤ d := by have := Nat.mod_lt f hd; omega
    have hnt : P.processed_traces < d * (f / d) * z + c := by
      rw [hPproc, hcd]
      have hfz : f * z = d * (f / d) * z + f % d * z := by
        conv_lhs => rw [← Nat.div_add_mod f d]
        ring
      have hsmall : f % d * z + p < d * z := by
        calc f % d * z + p < f % d * z + z := by omega
          _ = (f % d + 1) * z := by ring
          _ ≤ d * z := Nat.mul_le_mul_right z hmd
      omega
    have hT := cc_no_checkpoint ops P hPstep hc (hPmarks.trans ht) hnt
    rw [hrun, hL]
    simp only [runStep]
    rw [← hPdef, hT]
    -- the final reduction sees more than one mark and appends a slice
    have hlen2 : 1 < (P.batches_processed ++ [P.processed_traces]).length := by
      rw [List.length_append, hPmarks, h4]
      simp
    have htrP : truthy P.convergence_step = true := by
      rw [hPstep]
      exact truthy_some hc
    have happ : final_compute ops
        { P with batches_processed :=
            P.batches_processed ++ [P.processed_traces] } =
        compute_convergence_traces (compute_results ops
          { P with batches_processed :=
              P.batches_processed ++ [P.processed_traces] }) := by
      simp only [final_compute]
      rw [if_pos ⟨htrP, hlen2⟩]
    rw [happ]
    have hctfinal : (compute_convergence_traces (compute_results ops
        { P with batches_processed :=
            P.batches_processed ++ [P.processed_traces] })).convergence_traces =
        some (hyp, sl' ++ [ops.discriminant (ops.compute P.acc)]) := by
      simp only [compute_results, compute_convergence_traces]
      rw [show ({ P with batches_processed :=
          P.batches_processed ++ [P.processed_traces] } :
          AnalysisState Acc Result Score).convergence_traces =
          P.convergence_traces from rfl, hsl']
    have hmodpos : N % c ≠ 0 := by rw [hNmod]; omega
    rw [hNdiv, if_pos hmodpos, traceCount, hctfinal]
    simp only [List.length_append, hlen', List.length_cons, List.length_nil]

theorem run_checkpoint_count_witness :
    0 < 100 ∧ 0 < 300 ∧ compute_batch_size (some 300) 100 ∣ 300 ∧
    traceCount (run natOps (initState (some 300) (0 : Nat)) [1] 100 1000) =
      1000 / 300 + (if 1000 % 300 ≠ 0 then 1 else 0) :=
  ⟨by decide, by decide, by decide,
   run_checkpoint_count natOps 0 [1] 100 300 1000
     (by decide) (by decide) (by decide)⟩

end Scared
